import Mathlib

/-!
Verification of the `convert-folder-files-to-pdf` tool against its
specification.  The repository holds two Python scripts:

  * `src/convert_to_pdf.py` (the richer variant: skip rules, size limit,
    folder-structure PDF, merge step) and
  * `src/folder_to_pdf.py` (the simpler variant).

This development is a shallow embedding of the behaviourally relevant parts
of both scripts.  Files are modelled by the data an execution can observe
about them (raw bytes, the outcome of the text read, whether opening or
writing fails); rendered PDF documents are modelled as the list of text
lines fed to the renderer (`FPDF.multi_cell` receives exactly the fragments
obtained by splitting each `add_text` argument at newline characters).
-/

section SortModel

variable {α : Type} (le : α → α → Bool)

/-- Insert `a` in front of the first element `b` with `le a b`.  Used to
embed Python's `sorted`: `sorted` is a stable sort, and a stable sort is
uniquely determined by its comparator, so insertion sort (which is stable
for a reflexive `le`) produces exactly the list `sorted` produces. -/
def orderedInsertB (a : α) : List α → List α
  | [] => [a]
  | b :: l => if le a b then a :: b :: l else b :: orderedInsertB a l

/-- Stable insertion sort by the comparator `le`; the embedding of
Python's `sorted`. -/
def insertionSortB : List α → List α
  | [] => []
  | a :: l => orderedInsertB le a (insertionSortB l)

theorem orderedInsertB_perm (a : α) (l : List α) :
    (orderedInsertB le a l).Perm (a :: l) := by
  induction l with
  | nil => simp [orderedInsertB]
  | cons b l ih =>
    by_cases h : le a b = true
    · simp [orderedInsertB, h]
    · simp only [orderedInsertB, h, if_false]
      exact ((ih.cons b).trans (List.Perm.swap a b l))

theorem insertionSortB_perm (l : List α) :
    (insertionSortB le l).Perm l := by
  induction l with
  | nil => simp [insertionSortB]
  | cons a l ih =>
    exact ((orderedInsertB_perm le a (insertionSortB le l)).trans (ih.cons a))

theorem mem_insertionSortB {x : α} {l : List α} :
    x ∈ insertionSortB le l ↔ x ∈ l :=
  (insertionSortB_perm le l).mem_iff

theorem length_insertionSortB (l : List α) :
    (insertionSortB le l).length = l.length :=
  (insertionSortB_perm le l).length_eq

theorem pairwise_orderedInsertB
    (trans : ∀ a b c, le a b = true → le b c = true → le a c = true)
    (total : ∀ a b, le a b = true ∨ le b a = true)
    (a : α) (l : List α) (h : l.Pairwise (fun x y => le x y = true)) :
    (orderedInsertB le a l).Pairwise (fun x y => le x y = true) := by
  induction l with
  | nil => simp [orderedInsertB]
  | cons b l ih =>
    rcases List.pairwise_cons.mp h with ⟨hb, hl⟩
    by_cases hab : le a b = true
    · simp only [orderedInsertB, hab, if_true]
      refine List.pairwise_cons.mpr ⟨?_, h⟩
      intro x hx
      rcases List.mem_cons.mp hx with rfl | hx
      · exact hab
      · exact trans a b x hab (hb x hx)
    · simp only [orderedInsertB, hab, if_false]
      refine List.pairwise_cons.mpr ⟨?_, ih hl⟩
      intro x hx
      rcases List.mem_cons.mp ((orderedInsertB_perm le a l).mem_iff.mp hx) with rfl | h1
      · rcases total x b with h2 | h2
        · exact absurd h2 hab
        · exact h2
      · exact hb x h1

theorem sizeOf_orderedInsertB [SizeOf α] (a : α) (l : List α) :
    sizeOf (orderedInsertB le a l) = 1 + sizeOf a + sizeOf l := by
  induction l with
  | nil => simp [orderedInsertB]
  | cons b l ih =>
    cases hle : le a b with
    | true => simp [orderedInsertB, hle]
    | false =>
      simp [orderedInsertB, hle, ih]
      omega

theorem sizeOf_insertionSortB [SizeOf α] (l : List α) :
    sizeOf (insertionSortB le l) = sizeOf l := by
  induction l with
  | nil => rfl
  | cons a l ih =>
    simp only [insertionSortB, sizeOf_orderedInsertB, ih, List.cons.sizeOf_spec]

theorem pairwise_insertionSortB
    (trans : ∀ a b c, le a b = true → le b c = true → le a c = true)
    (total : ∀ a b, le a b = true ∨ le b a = true)
    (l : List α) :
    (insertionSortB le l).Pairwise (fun x y => le x y = true) := by
  induction l with
  | nil => simp [insertionSortB]
  | cons a l ih => exact pairwise_orderedInsertB le trans total a _ ih

end SortModel

/-- Lexicographic comparison of character lists by code point, the order
Python uses to compare strings. -/
def charListLe : List Char → List Char → Bool
  | [], _ => true
  | _ :: _, [] => false
  | a :: as, b :: bs =>
    if a < b then true
    else if b < a then false
    else charListLe as bs

theorem charListLe_total (a b : List Char) :
    charListLe a b = true ∨ charListLe b a = true := by
  induction a generalizing b with
  | nil => left; rfl
  | cons x as ih =>
    cases b with
    | nil => right; rfl
    | cons y bs =>
      rcases lt_trichotomy x y with h | h | h
      · left; simp [charListLe, h]
      · subst h
        simp only [charListLe, lt_irrefl, if_false]
        exact ih bs
      · right; simp [charListLe, h]

theorem charListLe_trans (a b c : List Char)
    (h1 : charListLe a b = true) (h2 : charListLe b c = true) :
    charListLe a c = true := by
  induction a generalizing b c with
  | nil => rfl
  | cons x as ih =>
    cases b with
    | nil => simp [charListLe] at h1
    | cons y bs =>
      cases c with
      | nil => simp [charListLe] at h2
      | cons z cs =>
        rcases lt_trichotomy x y with hxy | hxy | hxy
        · rcases lt_trichotomy y z with hyz | hyz | hyz
          · simp [charListLe, lt_trans hxy hyz]
          · subst hyz; simp [charListLe, hxy]
          · simp [charListLe, hyz, not_lt_of_gt hyz] at h2
        · subst hxy
          rcases lt_trichotomy x z with hyz | hyz | hyz
          · simp [charListLe, hyz]
          · subst hyz
            simp only [charListLe, lt_irrefl, if_false] at h1 h2 ⊢
            exact ih bs cs h1 h2
          · simp [charListLe, hyz, not_lt_of_gt hyz] at h2
        · simp [charListLe, hxy, not_lt_of_gt hxy] at h1

/-- Embedding of Python's `<=` on strings: lexicographic by code point. -/
def strLe (a b : String) : Bool := charListLe a.toList b.toList

theorem strLe_total (a b : String) : strLe a b = true ∨ strLe b a = true :=
  charListLe_total a.toList b.toList

theorem strLe_trans (a b c : String)
    (h1 : strLe a b = true) (h2 : strLe b c = true) : strLe a c = true :=
  charListLe_trans a.toList b.toList c.toList h1 h2

namespace ConvertToPdf

/-- Configured maximum file size in bytes (`MAX_FILE_SIZE = 2 * 1024 * 1024`
in `convert_to_pdf.py`). -/
def MAX_FILE_SIZE : Nat := 2 * 1024 * 1024

/-- Folder names pruned by the walk (`SKIP_FOLDERS` in `convert_to_pdf.py`). -/
def SKIP_FOLDERS : List String :=
  [".git", "__pycache__", "node_modules", "local_tiktoken_cache"]

/-- File names excluded by the walk (`SKIP_FILES` in `convert_to_pdf.py`). -/
def SKIP_FILES : List String :=
  [".dockerignore", "README.md", "generic.pdf", "with_cabin.pdf",
   "template_EN.pdf", "modified_template.pdf", "CALIBRI.ttf", "CALIBRIB.ttf"]

/-- Outcome of the text read attempts made by `process_file` (lines 113-124
of `convert_to_pdf.py`).  `ok t` : the strict UTF-8 read succeeds with text
`t`.  `decodeError t` : the strict read raises `UnicodeDecodeError` and the
re-read with `errors="replace"` yields the lossy text `t`.  `readError m` :
the first read raises some other exception rendered as the message `m`. -/
inductive ReadOutcome : Type where
  | ok (text : String)
  | decodeError (lossyText : String)
  | readError (msg : String)
deriving DecidableEq

/-- Observable data of one source file: its base name, raw byte content,
whether the binary-probe `open` of `is_binary` raises, the outcome of the
text read, and whether `pdf.output` raises when writing its PDF. -/
structure FileNode : Type where
  name : String
  bytes : List Nat
  probeFails : Bool
  textRead : ReadOutcome
  writeFails : Bool
deriving DecidableEq

/-- Embedding of `is_binary` (lines 78-89 of `convert_to_pdf.py`): open the
file, read at most 1024 bytes, return `true` when a zero byte occurs in that
chunk; any exception is swallowed and the function falls through to
`return False`. -/
def is_binary (probeFails : Bool) (bytes : List Nat) : Bool :=
  if probeFails then false
  else if (bytes.take 1024).contains 0 then true
  else false

/-- Helper for `splitLines`: splits a character list at `'\n'`, carrying the
current fragment in reverse.  Mirrors Python's `str.split('\n')`, which on
an empty string yields `[""]` and keeps empty fragments. -/
def splitLinesAux : List Char → List Char → List String
  | [], acc => [String.mk acc.reverse]
  | c :: cs, acc =>
    if c = '\n' then String.mk acc.reverse :: splitLinesAux cs []
    else splitLinesAux cs (c :: acc)

/-- Splitting a string at newline characters, as `text.split('\n')` does. -/
def splitLines (text : String) : List String :=
  splitLinesAux text.toList []

/-- Embedding of `PDF.add_text` (lines 69-76): the text is split at `'\n'`
and each fragment becomes one rendered cell, appended to the document. -/
def add_text (doc : List String) (text : String) : List String :=
  doc ++ splitLines text

/-- Placeholder rendered for binary files (line 104). -/
def binaryPlaceholder : String := "**Binary File: Content not displayed**"

/-- Placeholder rendered for oversized files (line 109).  In Python,
`MAX_FILE_SIZE / (1024 * 1024)` is float division and formats as `2.0`. -/
def sizePlaceholder : String :=
  "**File skipped: Exceeds maximum size of 2.0 MB**"

/-- Display path shown in the header line: the relative path with the path
separator replaced by `" > "` (line 96). -/
def displayPath (relParts : List String) : String :=
  String.intercalate (" > ") relParts

/-- The header document rendered first by `process_file` (line 100):
`f"File Location: {base_folder} > {display_path}\n\n"` fed to `add_text`. -/
def headerDoc (name : String) (dirParts : List String) (base_folder : String) :
    List String :=
  add_text []
    ("File Location: " ++ base_folder ++ " > "
      ++ displayPath (dirParts ++ [name]) ++ "\n\n")

/-- Suffix of a path's final component, following `pathlib`: the part of
the name from its last dot on, provided that dot is neither the first nor
the last character; otherwise the empty string. -/
def pathSuffix (name : String) : String :=
  let cs := name.toList
  match cs.reverse.findIdx? (fun c => c == '.') with
  | none => ""
  | some k =>
    let i := cs.length - 1 - k
    if 0 < i && i < cs.length - 1 then String.mk (cs.drop i) else ""

/-- Embedding of `Path(relative_path).with_suffix(".pdf")` applied to the
file name (line 127): the old suffix, when present, is removed and `.pdf`
is appended. -/
def withSuffixPdf (name : String) : String :=
  let old := pathSuffix name
  if old = "" then name ++ ".pdf" else name.dropRight old.length ++ ".pdf"

/-- Result of processing one file: the rendered document (list of cells),
the written output PDF as `(output folder, relative path components)` when
`pdf.output` is reached and succeeds, whether the write was attempted at
all, and how many times the file content was opened for a text read. -/
structure ProcResult : Type where
  doc : List String
  written : Option (String × List String)
  writeTried : Bool
  contentReads : Nat
deriving DecidableEq

/-- Embedding of `process_file` (lines 91-139 of `convert_to_pdf.py`).
`dirParts` are the directory components of the file's path relative to
`base_folder`, so the relative path is `dirParts ++ [f.name]`.  The header
is rendered first; a binary file gets the binary placeholder and the
function returns (line 106) before the output path is computed, an
oversized file likewise returns at line 111; otherwise the content is read
(strict UTF-8 first, lossy re-read on decode error, error message on any
other exception) and the document is written to
`output_folder / relative path with suffix .pdf`. -/
def process_file (f : FileNode) (dirParts : List String)
    (base_folder output_folder : String) : ProcResult :=
  let doc0 := headerDoc f.name dirParts base_folder
  if is_binary f.probeFails f.bytes then
    { doc := add_text doc0 binaryPlaceholder, written := none,
      writeTried := false, contentReads := 0 }
  else if MAX_FILE_SIZE < f.bytes.length then
    { doc := add_text doc0 sizePlaceholder, written := none,
      writeTried := false, contentReads := 0 }
  else
    let rd : List String × Nat :=
      match f.textRead with
      | .ok t => (add_text doc0 t, 1)
      | .decodeError t => (add_text doc0 t, 2)
      | .readError m => (add_text doc0 ("**Error reading file: " ++ m ++ "**"), 1)
    { doc := rd.1
      written := if f.writeFails then none
                 else some (output_folder, dirParts ++ [withSuffixPdf f.name])
      writeTried := true
      contentReads := rd.2 }

/-- Directory tree under the input root: named subdirectories and the files
of each directory, in the order `os.walk` reports them. -/
inductive FSDir : Type where
  | mk (subdirs : List (String × FSDir)) (files : List FileNode)

/-- Embedding of `str.startswith`. -/
def strStartsWith (s head : String) : Bool := head.toList.isPrefixOf s.toList

/-- Directory filter applied by the in-place pruning
`dirs[:] = [d for d in dirs if d not in SKIP_FOLDERS and not d.startswith('.')]`
(line 276). -/
def dirKeep (d : String) : Bool :=
  !(SKIP_FOLDERS.contains d) && !(strStartsWith d ("."))

/-- File filter applied by
`if file not in SKIP_FILES and not file.startswith('.')` (line 278). -/
def fileKeep (f : String) : Bool :=
  !(SKIP_FILES.contains f) && !(strStartsWith f ("."))

mutual
/-- Embedding of the candidate collection of `main` (lines 272-279): for the
directory reached through `parts`, `os.walk` first yields this directory's
triple so its kept files are appended, then descends into each kept
subdirectory in the walk's order. -/
def collectFiles (parts : List String) : FSDir → List (List String × FileNode)
  | .mk subdirs files =>
    (files.filter (fun f => fileKeep f.name)).map (fun f => (parts, f))
      ++ collectSub parts subdirs

/-- Descend into the pruned subdirectory list, in order. -/
def collectSub (parts : List String) :
    List (String × FSDir) → List (List String × FileNode)
  | [] => []
  | (d, sub) :: rest =>
    (if dirKeep d then collectFiles (parts ++ [d]) sub else [])
      ++ collectSub parts rest
end

mutual
/-- Membership of a file in the tree at the directory path `ds` (oracle used
to state which files exist on disk, independent of any filtering). -/
def hasFile : FSDir → List String → FileNode → Bool
  | .mk _ files, [], f => files.contains f
  | .mk subdirs _, d :: ds, f => hasFileSub subdirs d ds f

/-- Look up the subdirectory named `d` and continue the search there. -/
def hasFileSub : List (String × FSDir) → String → List String → FileNode → Bool
  | [], _, _, _ => false
  | (d', sub) :: rest, d, ds, f =>
    (d' == d && hasFile sub ds f) || hasFileSub rest d ds f
end

/-- Observable events of one run of `main` (lines 224-304), restricted to
what the claims are about: the `Found N files to process.` report, the
sequential per-file processing, and process exit. -/
inductive Event : Type where
  | countMsg (n : Nat)
  | fileDone (dirParts : List String) (f : FileNode) (r : ProcResult)
  | exitCode (code : Nat)
deriving DecidableEq

/-- Startup state of one run: whether the input folder exists and is a
directory, whether the font file exists, and the input tree. -/
structure World : Type where
  inputIsDir : Bool
  fontIsFile : Bool
  tree : FSDir

/-- Embedding of `main` (lines 224-304) as an event trace.  A missing or
non-directory input folder exits with code 1 (line 262), a missing font
file exits with code 1 (line 266), both before any file is processed.
Otherwise the full candidate list is materialised, its length is reported,
each candidate is processed sequentially in list order, and the process
ends with exit code 0: errors inside `process_file` (read, write) are
caught there, `generate_folder_structure_pdf` and `merge_pdfs` catch their
own reader and writer errors, so no later step changes the exit code. -/
def mainTrace (w : World) (base_folder output_folder : String) : List Event :=
  if !w.inputIsDir then [.exitCode 1]
  else if !w.fontIsFile then [.exitCode 1]
  else
    let all_files := collectFiles [] w.tree
    .countMsg all_files.length ::
      (all_files.map (fun pf =>
        .fileDone pf.1 pf.2 (process_file pf.2 pf.1 base_folder output_folder)))
      ++ [.exitCode 0]

/-- One directory yielded by `os.walk` over the folder passed to
`merge_pdfs`, in the walk's order: its path (`root`) and the names of the
files it directly contains, in the order the walk reports them. -/
structure WalkDir : Type where
  root : String
  files : List String
deriving DecidableEq

/-- Embedding of `os.path.join(root, file)` on POSIX. -/
def joinPath (root f : String) : String := root ++ "/" ++ f

/-- Embedding of `file.lower()`: per-character case folding (ASCII; this is
where Python and this model agree on every name relevant to the `.pdf`
test). -/
def strToLower (s : String) : String := String.mk (s.toList.map Char.toLower)

/-- Embedding of `str.endswith`. -/
def strEndsWith (s post : String) : Bool := post.toList.isSuffixOf s.toList

/-- The collection condition of `merge_pdfs` (line 196):
`file.lower().endswith(".pdf") and file != output_filename`. -/
def pdfKeep (output_filename f : String) : Bool :=
  strEndsWith (strToLower f) ".pdf" && f != output_filename

/-- Inner loop of the collection (lines 195-197): for each name of one
directory, in sorted order, append the joined path to the accumulator when
the condition holds. -/
def collectInner (output_filename root : String) :
    List String → List String → List String
  | [], acc => acc
  | f :: fs, acc =>
    collectInner output_filename root fs
      (if pdfKeep output_filename f then acc ++ [joinPath root f] else acc)

/-- Outer loop of the collection (line 194): walk the directories in order,
sorting each directory's file names. -/
def collectOuter (output_filename : String) :
    List WalkDir → List String → List String
  | [], acc => acc
  | e :: rest, acc =>
    collectOuter output_filename rest
      (collectInner output_filename e.root (insertionSortB strLe e.files) acc)

/-- The `all_pdfs` list of `merge_pdfs` (lines 193-197). -/
def collectPdfs (walk : List WalkDir) (output_filename : String) : List String :=
  collectOuter output_filename walk []

/-- Reader loop of `merge_pdfs` (lines 202-209): each collected PDF that
opens successfully contributes all of its pages, in source order, to the
accumulating writer; a PDF whose `PdfReader` raises is logged and skipped.
`readPdf` maps a path to its page list, or `none` when opening/parsing
fails; pages are abstract identifiers. -/
def mergeLoop (readPdf : String → Option (List Nat)) :
    List String → List Nat → List Nat
  | [], acc => acc
  | p :: rest, acc =>
    match readPdf p with
    | some pages => mergeLoop readPdf rest (acc ++ pages)
    | none => mergeLoop readPdf rest acc

/-- Result of `merge_pdfs`: where the merged document is written and the
page sequence it holds. -/
structure MergeResult : Type where
  outPath : String
  pages : List Nat
deriving DecidableEq

/-- Embedding of `merge_pdfs` (lines 185-222): collect, read and append,
then write the accumulated pages to `pdf_folder/output_filename` (a write
failure is caught and logged, lines 220-222, so the function always
returns). -/
def merge_pdfs (walk : List WalkDir) (readPdf : String → Option (List Nat))
    (pdf_folder output_filename : String) : MergeResult :=
  { outPath := joinPath pdf_folder output_filename
    pages := mergeLoop readPdf (collectPdfs walk output_filename) [] }

/-- One entry of a directory listing seen by the Tree Renderer
(`add_directory_contents`, lines 152-169): a plain file, or a directory
whose own listing is either available or raises `PermissionError`
(`listing = none`). -/
inductive Entry : Type where
  | file : String → Entry
  | dir : String → Option (List Entry) → Entry

/-- Name of a directory entry, as `os.listdir` reports it. -/
def entryName : Entry → String
  | .file n => n
  | .dir n _ => n

/-- Comparator used by `sorted(os.listdir(directory))`: names compared as
Python strings. -/
def entryLe (a b : Entry) : Bool := strLe (entryName a) (entryName b)

/-- Embedding of `sorted(os.listdir(directory))` (line 157). -/
def sortEntries (l : List Entry) : List Entry := insertionSortB entryLe l

/-- Connector of entry `i` of `n` (line 165): `"└── "` when `i == n-1`,
otherwise `"├── "`. -/
def connector (isLast : Bool) : String := if isLast then "└── " else "├── "

/-- Prefix extension passed to a child directory (line 168): four spaces
when the entry was last, otherwise the box-drawing continuation `"│   "`. -/
def childPad (isLast : Bool) : String := if isLast then "    " else "│   "

mutual
/-- Embedding of `add_directory_contents` (lines 152-169) for a directory
whose listing is `listing`: a `PermissionError` renders the single leaf
line `prefix + "└── [Permission Denied]\n"` and returns; otherwise the
sorted entries are rendered in order. -/
def add_directory_contents (pref : String) : Option (List Entry) → List String
  | none => [pref ++ "└── [Permission Denied]\n"]
  | some items =>
    renderItems pref (sortEntries items).length 0 (sortEntries items)
  termination_by o => sizeOf o
  decreasing_by
    simp [sortEntries, sizeOf_insertionSortB]

/-- The `for index, item in enumerate(items)` loop (lines 162-169): `n` is
the total number of entries of the level and `idx` the index of the first
element of the remaining list. -/
def renderItems (pref : String) (n idx : Nat) : List Entry → List String
  | [] => []
  | e :: rest =>
    (pref ++ connector (idx == n - 1) ++ entryName e) ::
      ((match e with
        | .file _ => []
        | .dir _ listing =>
          add_directory_contents (pref ++ childPad (idx == n - 1)) listing)
        ++ renderItems pref n (idx + 1) rest)
  termination_by l => sizeOf l
  decreasing_by
    · simp
      omega
    · simp
end

/-- The lines one loop iteration of `add_directory_contents` contributes
for one entry: its connector line, followed — when the entry is a
directory — by the recursive rendering of that directory under the
extended prefix. -/
def entryBlock (pref : String) (isLast : Bool) : Entry → List String
  | .file n => [pref ++ connector isLast ++ n]
  | .dir n listing =>
    (pref ++ connector isLast ++ n) ::
      add_directory_contents (pref ++ childPad isLast) listing

end ConvertToPdf

namespace FolderToPdf

/-- Embedding of `is_binary` in `folder_to_pdf.py` (lines 53-64); the code
is textually identical to the variant in `convert_to_pdf.py`. -/
def is_binary (probeFails : Bool) (bytes : List Nat) : Bool :=
  if probeFails then false
  else if (bytes.take 1024).contains 0 then true
  else false

end FolderToPdf

section Claims
open ConvertToPdf

theorem contains_zero_iff_getD (l : List Nat) (k : Nat) :
    ((l.take k).contains 0 = true) ↔
      ∃ i, i < min k l.length ∧ l.getD i 1 = 0 := by
  have h1 : ((l.take k).contains 0 = true) ↔ 0 ∈ l.take k := by
    simp
  rw [h1, List.mem_iff_getElem]
  constructor
  · rintro ⟨n, h, hn⟩
    have hmin : n < min k l.length := by simpa using h
    have hlen : n < l.length := lt_of_lt_of_le hmin (min_le_right _ _)
    refine ⟨n, hmin, ?_⟩
    have : l[n] = 0 := by rw [← List.getElem_take l]; exact hn
    simp [List.getD_eq_getElem?_getD, List.getElem?_eq_getElem hlen, this]
  · rintro ⟨i, hmin, hi⟩
    have hlen : i < l.length := lt_of_lt_of_le hmin (min_le_right _ _)
    have h : i < (l.take k).length := by simpa using hmin
    refine ⟨i, h, ?_⟩
    rw [List.getElem_take l]
    have := hi
    rw [List.getD_eq_getElem?_getD, List.getElem?_eq_getElem hlen] at this
    simpa using this

/-- Claim C4: `is_binary` returns true iff a zero byte occurs among the
first `min 1024 size` bytes; any read failure yields false; the result
depends only on the first 1024 bytes; and both source variants implement
the same function. -/
theorem c4_is_binary_first_kilobyte :
    (∀ bytes : List Nat, ConvertToPdf.is_binary false bytes = true ↔
      ∃ i, i < min 1024 bytes.length ∧ bytes.getD i 1 = 0)
  ∧ (∀ bytes : List Nat, ConvertToPdf.is_binary true bytes = false)
  ∧ (∀ (pf : Bool) (b1 b2 : List Nat), b1.take 1024 = b2.take 1024 →
      ConvertToPdf.is_binary pf b1 = ConvertToPdf.is_binary pf b2)
  ∧ (∀ (pf : Bool) (bytes : List Nat),
      ConvertToPdf.is_binary pf bytes = FolderToPdf.is_binary pf bytes) := by
  refine ⟨?_, ?_, ?_, ?_⟩
  · intro bytes
    rw [← contains_zero_iff_getD bytes 1024]
    simp [ConvertToPdf.is_binary]
  · intro bytes
    simp [ConvertToPdf.is_binary]
  · intro pf b1 b2 h
    simp [ConvertToPdf.is_binary, h]
  · intro pf bytes
    rfl

/-- Witness for C4: a file whose 1025th byte is its only zero byte is not
binary, while a zero byte inside the window is detected; agreement of the
two variants at a concrete input. -/
theorem c4_is_binary_first_kilobyte_witness :
    (ConvertToPdf.is_binary false (List.replicate 1024 7 ++ [0]) = false)
  ∧ (ConvertToPdf.is_binary false (0 :: List.replicate 1024 7) = true)
  ∧ ((List.replicate 1024 7 ++ [0]).take 1024 =
       (List.replicate 1025 7).take 1024
     ∧ ConvertToPdf.is_binary false (List.replicate 1024 7 ++ [0]) =
         ConvertToPdf.is_binary false (List.replicate 1025 7))
  ∧ ConvertToPdf.is_binary false [0] = FolderToPdf.is_binary false [0] := by
  have h1 : (List.replicate 1024 (7 : Nat) ++ [0]).take 1024 =
      List.replicate 1024 7 := by
    rw [List.take_append_of_le_length (by rw [List.length_replicate])]
    rw [List.take_replicate, Nat.min_self]
  have h2 : (List.replicate 1025 (7 : Nat)).take 1024 = List.replicate 1024 7 := by
    rw [List.take_replicate]
    norm_num
  have htake : (List.replicate 1024 (7 : Nat) ++ [0]).take 1024 =
      (List.replicate 1025 (7 : Nat)).take 1024 := h1.trans h2.symm
  have hnc : ((List.replicate 1024 (7 : Nat)).contains 0) = false := by
    rw [← Bool.not_eq_true]
    intro h
    rcases List.contains_iff_exists_mem_beq.mp h with ⟨a, ha, hb⟩
    have hza : (0 : Nat) = a := by simpa using hb
    have := List.mem_replicate.mp (hza ▸ ha)
    omega
  refine ⟨?_, ?_, ⟨htake, c4_is_binary_first_kilobyte.2.2.1 false _ _ htake⟩,
      c4_is_binary_first_kilobyte.2.2.2 false [0]⟩
  · rw [ConvertToPdf.is_binary]
    simp only [Bool.false_eq_true, if_false, h1, hnc]
  · refine (c4_is_binary_first_kilobyte.1 _).mpr ⟨0, ?_, rfl⟩
    rw [List.length_cons, List.length_replicate]
    omega

theorem splitLines_binaryPlaceholder :
    splitLines binaryPlaceholder = [binaryPlaceholder] := rfl

theorem splitLines_sizePlaceholder :
    splitLines sizePlaceholder = [sizePlaceholder] := rfl

/-- Claim C1 (code bug): the spec says a binary file's PDF, holding just
the header and the binary placeholder, is still written.  `process_file`
renders exactly that document but returns at line 106, before the output
path is computed and before `pdf.output` at line 135, so no PDF is written
for a binary file. -/
theorem c1_binary_placeholder_pdf_never_written :
    process_file ⟨"image.bin", [0, 1], false, .ok (""), false⟩ [] "app_folder" "output" =
      { doc := ["File Location: app_folder > image.bin", "", "",
                "**Binary File: Content not displayed**"],
        written := none, writeTried := false, contentReads := 0 } := by decide

/-- Claim C2 (code bug): in a run over a root with a text file `b.txt` and
a binary file `sub/image.bin` — both passing the skip rules and under the
size cap — the text file's PDF is written at the mirrored relative path
`b.pdf`, but the binary candidate produces no output PDF at all (the early
return of line 106 skips the write), so the output tree is not isomorphic
to the filtered input tree. -/
theorem c2_binary_candidate_breaks_isomorphism :
    fileKeep ("image.bin") = true
  ∧ ([0, 1] : List Nat).length ≤ MAX_FILE_SIZE
  ∧ mainTrace
      ⟨true, true,
        .mk [("sub", .mk [] [⟨"image.bin", [0, 1], false, .ok (""), false⟩])]
          [⟨"b.txt", [104, 105], false, .ok ("hi"), false⟩]⟩ "app" "out" =
      [.countMsg 2,
       .fileDone [] ⟨"b.txt", [104, 105], false, .ok ("hi"), false⟩
         { doc := ["File Location: app > b.txt", "", "", "hi"],
           written := some ("out", ["b.pdf"]), writeTried := true,
           contentReads := 1 },
       .fileDone ["sub"] ⟨"image.bin", [0, 1], false, .ok (""), false⟩
         { doc := ["File Location: app > sub > image.bin", "", "",
                   "**Binary File: Content not displayed**"],
           written := none, writeTried := false, contentReads := 0 },
       .exitCode 0] := by decide

/-- Claim C3: `process_file` checks binary first and size second, each
short-circuiting the rest: a binary file receives the binary placeholder
(and nothing else) even when it also exceeds the size threshold, and a
non-binary oversized file is never read for content and receives only the
size placeholder. -/
theorem c3_binary_check_precedes_size_check
    (f : FileNode) (dirParts : List String) (base out : String) :
    (is_binary f.probeFails f.bytes = true →
       process_file f dirParts base out =
         { doc := headerDoc f.name dirParts base ++ [binaryPlaceholder],
           written := none, writeTried := false, contentReads := 0 })
  ∧ (is_binary f.probeFails f.bytes = false →
     MAX_FILE_SIZE < f.bytes.length →
       process_file f dirParts base out =
         { doc := headerDoc f.name dirParts base ++ [sizePlaceholder],
           written := none, writeTried := false, contentReads := 0 }) := by
  constructor
  · intro hb
    simp [process_file, hb, add_text, splitLines_binaryPlaceholder]
  · intro hb hs
    simp [process_file, hb, hs, add_text, splitLines_sizePlaceholder]

/-- Witness for C3: an oversized all-zero file is classified binary and
gets the binary placeholder; an oversized all-one file is not binary and
gets the size placeholder, in both cases without a content read. -/
theorem c3_binary_check_precedes_size_check_witness :
    (is_binary false (List.replicate (MAX_FILE_SIZE + 1) 0) = true
     ∧ process_file
         ⟨"image.bin", List.replicate (MAX_FILE_SIZE + 1) 0, false, .ok (""), false⟩
         [] "app" "out" =
       { doc := headerDoc ("image.bin") [] "app" ++ [binaryPlaceholder],
         written := none, writeTried := false, contentReads := 0 })
  ∧ (is_binary false (List.replicate (MAX_FILE_SIZE + 1) 1) = false
     ∧ MAX_FILE_SIZE < (List.replicate (MAX_FILE_SIZE + 1) (1 : Nat)).length
     ∧ process_file
         ⟨"big.dat", List.replicate (MAX_FILE_SIZE + 1) 1, false, .ok (""), false⟩
         [] "app" "out" =
       { doc := headerDoc ("big.dat") [] "app" ++ [sizePlaceholder],
         written := none, writeTried := false, contentReads := 0 }) := by
  have hmin : min 1024 (MAX_FILE_SIZE + 1) = 1024 := by
    rw [Nat.min_eq_left]
    norm_num [MAX_FILE_SIZE]
  have hb1 : is_binary false (List.replicate (MAX_FILE_SIZE + 1) 0) = true := by
    rw [is_binary]
    simp only [Bool.false_eq_true, if_false, List.take_replicate, hmin]
    have : ((List.replicate 1024 (0 : Nat)).contains 0) = true := by
      exact List.contains_iff_exists_mem_beq.mpr
        ⟨0, List.mem_replicate.mpr ⟨by norm_num, rfl⟩, by simp⟩
    rw [this]
    rfl
  have hb2 : is_binary false (List.replicate (MAX_FILE_SIZE + 1) 1) = false := by
    rw [is_binary]
    simp only [Bool.false_eq_true, if_false, List.take_replicate, hmin]
    have : ((List.replicate 1024 (1 : Nat)).contains 0) = false := by
      rw [← Bool.not_eq_true]
      intro h
      rcases List.contains_iff_exists_mem_beq.mp h with ⟨a, ha, hbe⟩
      have hza : (0 : Nat) = a := by simpa using hbe
      have := List.mem_replicate.mp (hza ▸ ha)
      omega
    rw [this]
    rfl
  have hlen : MAX_FILE_SIZE < (List.replicate (MAX_FILE_SIZE + 1) (1 : Nat)).length := by
    rw [List.length_replicate]
    omega
  refine ⟨⟨hb1, (c3_binary_check_precedes_size_check _ _ _ _).1 hb1⟩,
          hb2, hlen, (c3_binary_check_precedes_size_check _ _ _ _).2 hb2 hlen⟩

/-- Claim C8: for a non-binary file under the size cap, the strict UTF-8
read is attempted first; the lossy re-read happens exactly when it raises
a decode error, and no code path reads content more than twice; any other
read error renders `**Error reading file: <error>**` in place of content;
in all three cases the write is still attempted, a write failure produces
no output PDF, and a run over any tree still processes every candidate and
ends with exit code 0. -/
theorem c8_read_retry_and_write_failure
    (f : FileNode) (dirParts : List String) (base out : String)
    (hb : is_binary f.probeFails f.bytes = false)
    (hs : f.bytes.length ≤ MAX_FILE_SIZE) :
    ((process_file f dirParts base out).contentReads = 2 ↔
       ∃ t, f.textRead = .decodeError t)
  ∧ (∀ (g : FileNode) (p : List String) (b o : String),
       (process_file g p b o).contentReads ≤ 2)
  ∧ (∀ m, f.textRead = .readError m →
       (process_file f dirParts base out).doc =
         headerDoc f.name dirParts base
           ++ splitLines ("**Error reading file: " ++ m ++ "**"))
  ∧ (process_file f dirParts base out).writeTried = true
  ∧ (f.writeFails = true → (process_file f dirParts base out).written = none)
  ∧ (f.writeFails = false →
       (process_file f dirParts base out).written =
         some (out, dirParts ++ [withSuffixPdf f.name]))
  ∧ (∀ (w : World) (b o : String), w.inputIsDir = true → w.fontIsFile = true →
       (mainTrace w b o).getLast? = some (.exitCode 0)) := by
  have hs' : ¬ MAX_FILE_SIZE < f.bytes.length := not_lt.mpr hs
  refine ⟨?_, ?_, ?_, ?_, ?_, ?_, ?_⟩
  · cases ht : f.textRead <;> simp [process_file, hb, hs', ht]
  · intro g p b o
    cases hgb : is_binary g.probeFails g.bytes with
    | true => simp [process_file, hgb]
    | false =>
      by_cases hgs : MAX_FILE_SIZE < g.bytes.length
      · simp [process_file, hgb, hgs]
      · cases ht : g.textRead <;> simp [process_file, hgb, hgs, ht]
  · intro m hm
    simp [process_file, hb, hs', hm, add_text]
  · cases ht : f.textRead <;> simp [process_file, hb, hs', ht]
  · intro hw
    cases ht : f.textRead <;> simp [process_file, hb, hs', ht, hw]
  · intro hw
    cases ht : f.textRead <;> simp [process_file, hb, hs', ht, hw]
  · intro w b o h1 h2
    simp only [mainTrace, h1, h2, Bool.not_true, Bool.false_eq_true, if_false]
    exact List.getLast?_concat _

/-- Witness for C8: a non-binary one-byte file whose strict read raises a
decode error is read exactly twice. -/
theorem c8_read_retry_and_write_failure_witness :
    is_binary false [200] = false
  ∧ ([200] : List Nat).length ≤ MAX_FILE_SIZE
  ∧ (((process_file ⟨"weird.txt", [200], false, .decodeError ("wx"), false⟩
        [] "a" "o").contentReads = 2)
       ↔ ∃ t, ReadOutcome.decodeError ("wx") = ReadOutcome.decodeError t) := by
  refine ⟨by decide, by decide, ?_⟩
  exact (c8_read_retry_and_write_failure
    ⟨"weird.txt", [200], false, .decodeError ("wx"), false⟩ [] "a" "o"
    (by decide) (by decide)).1

/-- Claim C9: the run exits with code 1, before any file is processed,
exactly when the input folder is missing or not a directory or the font
file is missing; in every other run the trace ends with exit code 0 and
never exits with code 1, whatever per-file read, write or merge-source
errors the tree holds. -/
theorem c9_exit_codes (w : World) (base out : String) :
    ((w.inputIsDir = false ∨ w.fontIsFile = false) ↔
       mainTrace w base out = [.exitCode 1])
  ∧ (w.inputIsDir = true → w.fontIsFile = true →
       (mainTrace w base out).getLast? = some (.exitCode 0)
       ∧ Event.exitCode 1 ∉ mainTrace w base out) := by
  cases h1 : w.inputIsDir with
  | false =>
    constructor
    · simp [mainTrace, h1]
    · intro h; simp [h1] at h
  | true =>
    cases h2 : w.fontIsFile with
    | false =>
      constructor
      · simp [mainTrace, h1, h2]
      · intro _ h; simp [h2] at h
    | true =>
      constructor
      · simp [mainTrace, h1, h2]
      · intro _ _
        constructor
        · simp only [mainTrace, h1, h2, Bool.not_true, Bool.false_eq_true,
            if_false]
          exact List.getLast?_concat _
        · simp only [mainTrace, h1, h2, Bool.not_true, Bool.false_eq_true,
            if_false]
          intro hmem
          rcases List.mem_append.mp hmem with h | h
          · rcases List.mem_cons.mp h with h' | h'
            · exact absurd h' (by simp)
            · rcases List.mem_map.mp h' with ⟨pf, _, hpf⟩
              exact absurd hpf (by simp)
          · simp at h

/-- Witness for C9: a valid world with an empty tree ends with exit code 0
and never exits with code 1. -/
theorem c9_exit_codes_witness :
    (true = true ∧ true = true)
  ∧ ((mainTrace ⟨true, true, .mk [] []⟩ "a" "o").getLast? =
       some (.exitCode 0)
     ∧ Event.exitCode 1 ∉ mainTrace ⟨true, true, .mk [] []⟩ "a" "o") :=
  ⟨⟨rfl, rfl⟩, (c9_exit_codes ⟨true, true, .mk [] []⟩ "a" "o").2 rfl rfl⟩

theorem collectInner_eq (out root : String) (fs acc : List String) :
    collectInner out root fs acc =
      acc ++ (fs.filter (fun f => pdfKeep out f)).map (joinPath root) := by
  induction fs generalizing acc with
  | nil => simp [collectInner]
  | cons f fs ih =>
    cases hk : pdfKeep out f with
    | true => simp [collectInner, hk, ih]
    | false => simp [collectInner, hk, ih]

theorem collectOuter_eq (out : String) (walk : List WalkDir)
    (acc : List String) :
    collectOuter out walk acc =
      acc ++ walk.flatMap (fun e =>
        ((insertionSortB strLe e.files).filter (fun f => pdfKeep out f)).map
          (joinPath e.root)) := by
  induction walk generalizing acc with
  | nil => simp [collectOuter]
  | cons e rest ih => simp [collectOuter, ih, collectInner_eq]

theorem collectPdfs_eq (walk : List WalkDir) (out : String) :
    collectPdfs walk out = walk.flatMap (fun e =>
      ((insertionSortB strLe e.files).filter (fun f => pdfKeep out f)).map
        (joinPath e.root)) := by
  simp [collectPdfs, collectOuter_eq]

theorem mergeLoop_eq (readPdf : String → Option (List Nat))
    (ps : List String) (acc : List Nat) :
    mergeLoop readPdf ps acc =
      acc ++ ps.flatMap (fun p => (readPdf p).getD []) := by
  induction ps generalizing acc with
  | nil => simp [mergeLoop]
  | cons p rest ih =>
    cases h : readPdf p with
    | none => simp [mergeLoop, h, ih]
    | some pages => simp [mergeLoop, h, ih]

/-- Claim C5: `merge_pdfs` collects, directory by directory in the walk's
order and lexicographically within each directory, exactly the files whose
lowercased name ends in `.pdf` and whose name differs from the output
filename; each collected PDF that opens contributes all its pages in
source order while a failing one is skipped; and the accumulated pages are
written to `pdf_folder/output_filename`. -/
theorem c5_merge_pdfs_spec :
    (∀ (walk : List WalkDir) (out : String),
       collectPdfs walk out = walk.flatMap (fun e =>
         ((insertionSortB strLe e.files).filter (fun f => pdfKeep out f)).map
           (joinPath e.root)))
  ∧ (∀ (walk : List WalkDir) (out p : String),
       p ∈ collectPdfs walk out ↔
         ∃ e, e ∈ walk ∧ ∃ f, f ∈ e.files ∧ p = joinPath e.root f
           ∧ strEndsWith (strToLower f) ".pdf" = true ∧ f ≠ out)
  ∧ (∀ (out : String) (files : List String),
       ((insertionSortB strLe files).filter (fun f => pdfKeep out f)).Pairwise
         (fun a b => strLe a b = true))
  ∧ (∀ walk readPdf folder out,
       (merge_pdfs walk readPdf folder out).pages =
         (collectPdfs walk out).flatMap (fun p => (readPdf p).getD []))
  ∧ (∀ walk readPdf folder out,
       (merge_pdfs walk readPdf folder out).outPath = joinPath folder out) := by
  refine ⟨collectPdfs_eq, ?_, ?_, ?_, fun _ _ _ _ => rfl⟩
  · intro walk out p
    rw [collectPdfs_eq]
    simp only [List.mem_flatMap, List.mem_map, List.mem_filter,
      mem_insertionSortB, pdfKeep, Bool.and_eq_true, bne_iff_ne, ne_eq]
    constructor
    · rintro ⟨e, he, f, ⟨hf, hpdf, hne⟩, rfl⟩
      exact ⟨e, he, f, hf, rfl, hpdf, hne⟩
    · rintro ⟨e, he, f, hf, rfl, hpdf, hne⟩
      exact ⟨e, he, f, ⟨hf, hpdf, hne⟩, rfl⟩
  · intro out files
    exact (pairwise_insertionSortB strLe strLe_trans strLe_total files).filter _
  · intro walk readPdf folder out
    simp [merge_pdfs, mergeLoop_eq]

/-- Witness for C5: the collection equality instantiated at one concrete
walk. -/
theorem c5_merge_pdfs_spec_witness :
    collectPdfs [⟨"r", ["b.PDF", "a.pdf", "x.txt"]⟩] "app_source.pdf" =
      [(⟨"r", ["b.PDF", "a.pdf", "x.txt"]⟩ : WalkDir)].flatMap (fun e =>
        ((insertionSortB strLe e.files).filter
          (fun f => pdfKeep ("app_source.pdf") f)).map (joinPath e.root)) :=
  c5_merge_pdfs_spec.1 [⟨"r", ["b.PDF", "a.pdf", "x.txt"]⟩] ("app_source.pdf")

/-- Claim C10: the self-exclusion check of `merge_pdfs` compares names to
the output filename case-sensitively while the `.pdf` test lowercases, so
`APP_SOURCE.PDF` passes the `.pdf` test, differs from `app_source.pdf`,
and is collected for merging rather than excluded. -/
theorem c10_merge_self_exclusion_case_sensitive :
    strEndsWith (strToLower ("APP_SOURCE.PDF")) ".pdf" = true
  ∧ "APP_SOURCE.PDF" ≠ "app_source.pdf"
  ∧ collectPdfs [⟨"individual_pdfs", ["APP_SOURCE.PDF"]⟩] "app_source.pdf" =
      ["individual_pdfs/APP_SOURCE.PDF"] := by decide

theorem renderItems_cons (pref : String) (n idx : Nat) (e : Entry)
    (rest : List Entry) :
    renderItems pref n idx (e :: rest) =
      entryBlock pref (idx == n - 1) e ++ renderItems pref n (idx + 1) rest := by
  cases e <;> simp [renderItems, entryBlock, entryName]

theorem renderItems_eq_flatMap (pref : String) (n : Nat) (l : List Entry) :
    ∀ idx, renderItems pref n idx l =
      (List.range l.length).flatMap (fun j =>
        entryBlock pref (idx + j == n - 1) (l.getD j (.file ("")))) := by
  induction l with
  | nil => intro idx; simp [renderItems]
  | cons e rest ih =>
    intro idx
    rw [renderItems_cons, ih (idx + 1), List.length_cons,
      List.range_succ_eq_map, List.flatMap_cons, List.flatMap_map]
    simp only [Function.comp_def, Nat.add_zero, List.getD_cons_zero,
      List.getD_cons_succ, Nat.add_assoc, Nat.add_comm 1]

/-- Claim C6: a permission-denied directory renders the single leaf line
`[Permission Denied]` with no recursion; an accessible directory renders
its entries in sorted order, where entry `i` of `n` gets connector
`"└── "` exactly when `i == n - 1` and `"├── "` otherwise, and a child
directory is rendered under the prefix extended by four spaces when its
entry was last and by the box-drawing continuation otherwise. -/
theorem c6_tree_renderer_lines :
    (∀ pref, add_directory_contents pref none =
       [pref ++ "└── [Permission Denied]\n"])
  ∧ (∀ pref items, add_directory_contents pref (some items) =
       (List.range (sortEntries items).length).flatMap (fun i =>
         entryBlock pref (i == (sortEntries items).length - 1)
           ((sortEntries items).getD i (.file ("")))))
  ∧ (∀ items, (sortEntries items).Pairwise
       (fun a b => strLe (entryName a) (entryName b) = true))
  ∧ (∀ items, (sortEntries items).Perm items)
  ∧ (∀ pref isLast name listing,
       entryBlock pref isLast (.dir name listing) =
         (pref ++ connector isLast ++ name) ::
           add_directory_contents (pref ++ childPad isLast) listing)
  ∧ (connector true = "└── " ∧ connector false = "├── "
     ∧ childPad true = "    " ∧ childPad false = "│   ") := by
  refine ⟨?_, ?_, ?_, ?_, ?_, by decide⟩
  · intro pref
    simp [add_directory_contents]
  · intro pref items
    rw [add_directory_contents]
    rw [renderItems_eq_flatMap]
    simp
  · intro items
    have h := pairwise_insertionSortB entryLe
      (fun a b c => strLe_trans (entryName a) (entryName b) (entryName c))
      (fun a b => strLe_total (entryName a) (entryName b)) items
    simpa [entryLe] using h
  · intro items
    exact insertionSortB_perm entryLe items
  · intro pref isLast name listing
    rfl

mutual
theorem mem_collectFiles_iff :
    ∀ (t : FSDir) (parts p : List String) (f : FileNode),
      ((p, f) ∈ collectFiles parts t ↔
        ∃ ds, p = parts ++ ds ∧ hasFile t ds f = true
          ∧ ds.all dirKeep = true ∧ fileKeep f.name = true)
  | .mk subdirs files, parts, p, f => by
    rw [collectFiles, List.mem_append, mem_collectSub_iff subdirs parts p f]
    constructor
    · rintro (hmap | ⟨d, ds, hp, hsub, hkd, hall, hkf⟩)
      · rcases List.mem_map.mp hmap with ⟨g, hg, hpair⟩
        rcases List.mem_filter.mp hg with ⟨hgf, hgk⟩
        have hp : parts = p := congrArg Prod.fst hpair
        have hgf2 : g = f := congrArg Prod.snd hpair
        subst hp
        subst hgf2
        refine ⟨[], by simp, ?_, by simp, hgk⟩
        simp [hasFile, hgf]
      · refine ⟨d :: ds, hp, ?_, ?_, hkf⟩
        · simp [hasFile, hsub]
        · simp [hkd, hall]
    · rintro ⟨ds, rfl, hhf, hall, hkf⟩
      cases ds with
      | nil =>
        left
        have hf : f ∈ files := by simpa [hasFile] using hhf
        exact List.mem_map.mpr ⟨f, List.mem_filter.mpr ⟨hf, hkf⟩, by simp⟩
      | cons d ds =>
        right
        have hsub : hasFileSub subdirs d ds f = true := by
          simpa [hasFile] using hhf
        have hall2 := hall
        simp only [List.all_cons, Bool.and_eq_true] at hall2
        exact ⟨d, ds, rfl, hsub, hall2.1, hall2.2, hkf⟩

theorem mem_collectSub_iff :
    ∀ (l : List (String × FSDir)) (parts p : List String) (f : FileNode),
      ((p, f) ∈ collectSub parts l ↔
        ∃ d ds, p = parts ++ d :: ds ∧ hasFileSub l d ds f = true
          ∧ dirKeep d = true ∧ ds.all dirKeep = true ∧ fileKeep f.name = true)
  | [], parts, p, f => by
    simp [collectSub, hasFileSub]
  | (d', sub) :: rest, parts, p, f => by
    have hrec1 := mem_collectFiles_iff sub (parts ++ [d']) p f
    have hrec2 := mem_collectSub_iff rest parts p f
    cases hkd : dirKeep d' with
    | true =>
      rw [collectSub, hkd]
      simp only [if_true]
      rw [List.mem_append, hrec1, hrec2]
      constructor
      · rintro (⟨ds, hp, hh, hall, hkf⟩ | ⟨d, ds, hp, hsub, hkd2, hall, hkf⟩)
        · refine ⟨d', ds, by simpa using hp, ?_, hkd, hall, hkf⟩
          simp [hasFileSub, hh]
        · refine ⟨d, ds, hp, ?_, hkd2, hall, hkf⟩
          simp [hasFileSub, hsub]
      · rintro ⟨d, ds, hp, hor, hkd2, hall, hkf⟩
        rw [hasFileSub, Bool.or_eq_true] at hor
        rcases hor with hor | hor
        · rw [Bool.and_eq_true] at hor
          have hd : d' = d := eq_of_beq hor.1
          subst hd
          exact Or.inl ⟨ds, by simpa using hp, hor.2, hall, hkf⟩
        · exact Or.inr ⟨d, ds, hp, hor, hkd2, hall, hkf⟩
    | false =>
      rw [collectSub, hkd]
      simp only [Bool.false_eq_true, if_false, List.nil_append]
      rw [hrec2]
      constructor
      · rintro ⟨d, ds, hp, hsub, hkd2, hall, hkf⟩
        refine ⟨d, ds, hp, ?_, hkd2, hall, hkf⟩
        rw [hasFileSub, Bool.or_eq_true]
        exact Or.inr hsub
      · rintro ⟨d, ds, hp, hor, hkd2, hall, hkf⟩
        rw [hasFileSub, Bool.or_eq_true] at hor
        rcases hor with hor | hor
        · rw [Bool.and_eq_true] at hor
          have hd : d' = d := eq_of_beq hor.1
          rw [← hd] at hkd2
          rw [hkd2] at hkd
          cases hkd
        · exact ⟨d, ds, hp, hor, hkd2, hall, hkf⟩
end

/-- Claim C7: the candidate list contains exactly the files reachable
through directories that all pass the directory filter (not in the
skip-folder set, not starting with `.`), whose own name passes the file
filter; and in a valid run the candidate count is reported first, after
which the candidates are processed sequentially in list order. -/
theorem c7_walk_filter_candidates (t : FSDir) (p : List String) (f : FileNode) :
    ((p, f) ∈ collectFiles [] t ↔
       hasFile t p f = true ∧ p.all dirKeep = true ∧ fileKeep f.name = true)
  ∧ (∀ (w : World) (b o : String), w.inputIsDir = true → w.fontIsFile = true →
       mainTrace w b o =
         .countMsg (collectFiles [] w.tree).length ::
           (collectFiles [] w.tree).map (fun pf =>
             .fileDone pf.1 pf.2 (process_file pf.2 pf.1 b o))
           ++ [.exitCode 0]) := by
  constructor
  · rw [mem_collectFiles_iff]
    constructor
    · rintro ⟨ds, rfl, h⟩
      simpa using h
    · intro h
      exact ⟨p, by simp, h.1, h.2.1, h.2.2⟩
  · intro w b o h1 h2
    simp [mainTrace, h1, h2]

/-- Witness for C7: the trace shape at a concrete valid world. -/
theorem c7_walk_filter_candidates_witness :
    (true = true ∧ true = true)
  ∧ mainTrace ⟨true, true, FSDir.mk [] []⟩ "b" "o" =
      .countMsg (collectFiles [] (FSDir.mk [] [])).length ::
        (collectFiles [] (FSDir.mk [] [])).map (fun pf =>
          .fileDone pf.1 pf.2 (process_file pf.2 pf.1 ("b") ("o")))
        ++ [.exitCode 0] :=
  ⟨⟨rfl, rfl⟩,
    (c7_walk_filter_candidates (FSDir.mk [] []) []
        ⟨"x", [], false, .ok (""), false⟩).2 ⟨true, true, FSDir.mk [] []⟩
      "b" "o" rfl rfl⟩

end Claims

